import Mathlib

/-!
Verification of the work-partitioning, parallel-execution and
synchronized-progress-reporting subsystem of the Time_Series_Modeler
repository (src/Base/BaseModeler.py, src/Utils/ParallelPrinter.py),
as a shallow embedding in Lean 4.
-/

/-- GroupID: opaque identifier of one time series (a value of the `id`
column). Modelled as a natural number. -/
abbrev GroupID := ℕ

/-!
## Partitioner

`BaseModeler.parallel_fit_predict` splits the grouped data with
`np.array_split(groups, self.processors)`.  NumPy's `array_split` of a
length-`L` sequence into `n` sections produces the first `L % n`
sections with `L / n + 1` elements and the remaining sections with
`L / n` elements (integer division).
-/

/-- The section sizes `np.array_split` uses for a length-`L` input and
`n` sections: the first `L % n` sections get one extra element. -/
def split_sizes (L n : ℕ) : List ℕ :=
  (List.range n).map (fun i => L / n + if i < L % n then 1 else 0)

/-- Cut a list into consecutive chunks of the given sizes. -/
def splitBySizes {α : Type} : List α → List ℕ → List (List α)
  | _, [] => []
  | l, s :: rest => l.take s :: splitBySizes (l.drop s) rest

/-- `np.array_split(l, n)`: cut `l` into `n` consecutive sections whose
sizes are `split_sizes l.length n`. -/
def array_split {α : Type} (l : List α) (n : ℕ) : List (List α) :=
  splitBySizes l (split_sizes l.length n)

/-!
## Setup phase of `parallel_fit_predict`

After `np.array_split` (which raises `ValueError` when the section
count is 0), the code rebuilds each split with
`pd.concat(split[:, 1])` (src/Base/BaseModeler.py:91).  When a split is
empty this line raises (`IndexError` on the empty array for an empty
input, `ValueError: No objects to concatenate` otherwise), so setup
aborts before the process pool is created and before any fit call.
-/

inductive SetupError where
  | invalidSectionCount : SetupError
  | emptySplitConcat : SetupError
deriving DecidableEq

def setup_partitions (l : List GroupID) (n : ℕ) :
    Except SetupError (List (List GroupID)) :=
  if n = 0 then Except.error SetupError.invalidSectionCount
  else
    let splits := array_split l n
    if splits.any List.isEmpty then Except.error SetupError.emptySplitConcat
    else Except.ok splits

def setup_fails (l : List GroupID) (n : ℕ) : Bool :=
  match setup_partitions l n with
  | Except.error _ => true
  | Except.ok _ => false

/-- The groups for which a fit is ever invoked during a run: none at
all when setup fails (the pool is created only after the splits). -/
def pipeline_fit_calls (l : List GroupID) (n : ℕ) : List GroupID :=
  match setup_partitions l n with
  | Except.error _ => []
  | Except.ok parts => parts.flatten

/-!
## ProgressTracker: `ParallelPrinter` (src/Utils/ParallelPrinter.py)

The manager-owned `ParallelPrinter` serialises all `update` calls, so
the subsystem is modelled as a sequential state machine.  The
`job_time_tracker` DataFrame is the ProgressMatrix: a grid of cells
indexed by (job index, worker slot) that start as NaN and receive a
wall-clock timestamp when `update(proc_num, job_num)` runs.  A cell is
`none` (NaN) or `some t` where `t` is the timestamp as an integer.
-/

/-- Static configuration of a `ParallelPrinter`: `total_procs` and
`proc_job_dict` (the job count of each worker slot `0 ≤ p < total_procs`),
as fixed by the constructor. -/
structure PrinterConfig where
  total_procs : ℕ
  proc_job : ℕ → ℕ

/-- `max(self.proc_job_dict.values())`. -/
def PrinterConfig.max_jobs (cfg : PrinterConfig) : ℕ :=
  (((List.range cfg.total_procs).map cfg.proc_job).foldr max 0)

/-- Mutable state of a `ParallelPrinter`: the `job_time_tracker` matrix
(`mat job proc`) plus an abstract wall clock that advances at each
`update` call (each call stamps a fresh `datetime.now()` value). -/
structure PrinterState where
  mat : ℕ → ℕ → Option ℤ
  clock : ℕ

/-- The freshly constructed state: every ProgressMatrix cell is NaN. -/
def initPrinterState : PrinterState :=
  { mat := fun _ _ => none, clock := 0 }

/-- `self.job_time_tracker.iloc[job_num, proc_num] = time_completed`. -/
def writeCell (m : ℕ → ℕ → Option ℤ) (job proc : ℕ) (t : ℤ) :
    ℕ → ℕ → Option ℤ :=
  fun j p => if j = job ∧ p = proc then some t else m j p

/-- `non_min_procs`: the slots whose total job count exceeds `job_num`
(src/Utils/ParallelPrinter.py:128). -/
def non_min_procs (cfg : PrinterConfig) (job_num : ℕ) : List ℕ :=
  (List.range cfg.total_procs).filter (fun p => job_num < cfg.proc_job p)

/-- The completion-barrier check of `update`: row `job_num` restricted
to `non_min_procs` has no NaN
(`not ...isnull().values.any()`, src/Utils/ParallelPrinter.py:131). -/
def barrier (cfg : PrinterConfig) (m : ℕ → ℕ → Option ℤ) (job_num : ℕ) :
    Bool :=
  (non_min_procs cfg job_num).all (fun p => (m job_num p).isSome)

/-- `ParallelPrinter.update(proc_num, job_num)`: stamp the cell, then
report `job_num` (i.e. call `print_parallel_message(job_num)`) exactly
when the barrier for that row now holds. -/
def update (cfg : PrinterConfig) (st : PrinterState) (proc_num job_num : ℕ) :
    PrinterState × Option ℕ :=
  let m := writeCell st.mat job_num proc_num (st.clock : ℤ)
  ({ mat := m, clock := st.clock + 1 },
    if barrier cfg m job_num then some job_num else none)

/-- Run a sequence of `update` calls (each list entry is
`(proc_num, job_num)`), returning the final state and the list of job
indices reported along the way. -/
def runUpdates (cfg : PrinterConfig) (st : PrinterState) :
    List (ℕ × ℕ) → PrinterState × List ℕ
  | [] => (st, [])
  | c :: rest =>
    let r := update cfg st c.1 c.2
    let rec' := runUpdates cfg r.1 rest
    (rec'.1, r.2.toList ++ rec'.2)

/-- The job indices reported over a call sequence, from a fresh state. -/
def reports (cfg : PrinterConfig) (calls : List (ℕ × ℕ)) : List ℕ :=
  (runUpdates cfg initPrinterState calls).2

/-!
## SynchronizedReporter layout: `configure_prints`
(src/Utils/ParallelPrinter.py:51-106)

`'{:>w}'.format(s)` pads `s` on the left with spaces up to a minimum
width `w`; `'{:-<w}'.format('')` is `w` dashes.  The divider and
message format strings concatenate a time column, a job column and one
column per process.
-/

/-- Python `'{:>w}'.format(s)`: left-pad with spaces to width `w`
(the value is kept whole when longer than `w`). -/
def pyPadLeft (w : ℕ) (s : String) : String :=
  String.mk (List.replicate (w - s.length) ' ') ++ s

/-- Python `'{:-<w}'.format(s)`: right-pad with dashes to width `w`. -/
def pyPadRightDash (w : ℕ) (s : String) : String :=
  s ++ String.mk (List.replicate (w - s.length) '-')

/-- Concatenation of a list of column segments (string repetition
`fmt * total_procs` followed by `.format`). -/
def strConcat (l : List String) : String := l.foldr (fun a b => a ++ b) ""

/-- `process_col_len = (120 - time_col_len - job_col_len) // total_procs`. -/
def process_col_len (n : ℕ) : ℕ := (120 - 12 - 17) / n

/-- `time_col_len = 12 + (120 - 12 - 17) % total_procs`: the time
column absorbs the division remainder. -/
def time_col_len (n : ℕ) : ℕ := 12 + (120 - 12 - 17) % n

/-- `job_col_len = 17`. -/
def job_col_len : ℕ := 17

/-- `self.parallel_divider`: `'+{:-<tcl-2}+' + '{:-<jcl-1}+' +
('{:-<pcl-1}+') * total_procs`, formatted with empty strings. -/
def parallel_divider (n : ℕ) : String :=
  "+" ++ pyPadRightDash (time_col_len n - 2) "" ++ "+" ++
    pyPadRightDash (job_col_len - 1) "" ++ "+" ++
    strConcat ((List.range n).map
      (fun _ => pyPadRightDash (process_col_len n - 1) "" ++ "+"))

/-- `self.parallel_message.format(timeS, jobS, *procS)`:
`'| {:>tcl-4} |' + ' {:>jcl-3} |' + (' {:>pcl-3} |') * total_procs`. -/
def parallel_message_fmt (n : ℕ) (timeS jobS : String)
    (procS : List String) : String :=
  "| " ++ pyPadLeft (time_col_len n - 4) timeS ++ " |" ++
    " " ++ pyPadLeft (job_col_len - 3) jobS ++ " |" ++
    strConcat (procS.map
      (fun s => " " ++ pyPadLeft (process_col_len n - 3) s ++ " |"))

/-- `process_titles = ('P_1', ..., 'P_N')`. -/
def process_titles (n : ℕ) : List String :=
  (List.range n).map (fun i => "P_" ++ toString (i + 1))

/-- `self.parallel_title = self.parallel_message.format('Time',
'Job # / Total', *process_titles)`, emitted by
`print_notify_parallel_begin`. -/
def parallel_title (n : ℕ) : String :=
  parallel_message_fmt n "Time" "Job # / Total" (process_titles n)

/-!
## `print_parallel_message` (src/Utils/ParallelPrinter.py:156-204)

The `splits` row is `np.where(current_job_times != -1,
current_job_times - prev_job_times, '-')`.  The matrix starts as
float64 NaN columns; writing a `datetime` through `iloc` upcasts the
column to object dtype, so a row's `.values` mixes float `nan` and
`datetime` objects.  The subtraction argument of `np.where` is
evaluated eagerly and elementwise on that object row:
`datetime - datetime` is a duration, `nan - nan` is `nan`, and a
subtraction mixing `nan` with a `datetime` (either way) raises
`TypeError`, aborting the print before anything is rendered.
-/

/-- Exceptions a numpy/pandas expression of this module can raise. -/
inductive PyError where
  | typeError : PyError
deriving DecidableEq

def exceptOk {ε α : Type} : Except ε α → Bool
  | Except.ok _ => true
  | Except.error _ => false

def exceptGetD {ε α : Type} (d : α) : Except ε α → α
  | Except.ok a => a
  | Except.error _ => d

/-- Elementwise `cell != v` as numpy/pandas evaluates it on an object
cell holding NaN or a timestamp: NaN is unequal to every number. -/
def cell_neq (c : Option ℤ) (v : ℤ) : Bool :=
  match c with
  | none => true
  | some t => decide (t ≠ v)

/-- One entry of the eager object-dtype subtraction `current - prev`:
`datetime - datetime` gives a duration, `nan - nan` gives `nan`, and
mixing `nan` with a `datetime` raises `TypeError`. -/
def cellSub (cur prev : Option ℤ) : Except PyError (Option ℤ) :=
  match cur, prev with
  | some a, some b => Except.ok (some (a - b))
  | none, none => Except.ok none
  | none, some _ => Except.error PyError.typeError
  | some _, none => Except.error PyError.typeError

/-- `str(split)` for one entry of the `splits` row. -/
def renderDelta : Option ℤ → String
  | none => "nan"
  | some d => toString d

/-- One entry of `np.where(cond, current - prev, '-')`: the
subtraction is evaluated first (and may raise), then the guard picks
the rendered value or `'-'`. -/
def whereEntry (cur prev : Option ℤ) : Except PyError String :=
  match cellSub cur prev with
  | Except.error e => Except.error e
  | Except.ok d =>
      Except.ok (if cell_neq cur (-1) then renderDelta d else "-")

/-- `prev_job_times`: the scalar `start_time` for job 0, otherwise the
cell of matrix row `job_num - 1`. -/
def prev_job_times (start_time : ℤ) (st : PrinterState) (job_num p : ℕ) :
    Option ℤ :=
  if job_num = 0 then some start_time else st.mat (job_num - 1) p

/-- The data of one progress line printed by
`print_parallel_message(job_num)`: the current wall-clock time, the
`'{:d} / {:d}'.format(job_num + 1, self.max_jobs)` pair, and the
rendered `splits` row.  If the eager subtraction raises on any entry,
the whole call raises and nothing is rendered. -/
def print_parallel_message (cfg : PrinterConfig) (start_time : ℤ)
    (st : PrinterState) (job_num : ℕ) :
    Except PyError (ℕ × (ℕ × ℕ) × List String) :=
  if (List.range cfg.total_procs).all
      (fun p => exceptOk (whereEntry (st.mat job_num p)
        (prev_job_times start_time st job_num p)))
  then Except.ok (st.clock,
    (job_num + 1, cfg.max_jobs),
    (List.range cfg.total_procs).map
      (fun p => exceptGetD "" (whereEntry (st.mat job_num p)
        (prev_job_times start_time st job_num p))))
  else Except.error PyError.typeError

/-!
## Worker: `iterative_fit_predict` / `fit_predict_wrapper`
(src/Base/BaseModeler.py:151-207)

`ids = df['id'].unique()` lists the partition's distinct GroupIDs in
order of first appearance, while `groups.apply` iterates the groups in
sorted key order (`groupby` sorts).  For each group the wrapper first
runs `fit_predict` and then calls
`shared_printer.update(proc_num, np.where(ids == x.name)[0][0])`.
-/

/-- `df['id'].unique()`: the distinct values in order of first
appearance. -/
def uniqueInOrder : List GroupID → List GroupID
  | [] => []
  | x :: xs => x :: (uniqueInOrder xs).filter (fun y => y ≠ x)

/-- One observable step of a worker: a `fit_predict` call for a group,
or an `update(proc_num, job_num)` call reporting a job index. -/
inductive WorkerEvent where
  | fit (g : GroupID) : WorkerEvent
  | report (j : ℕ) : WorkerEvent
deriving DecidableEq

/-- The event trace of one worker over its partition (given by the
partition's row-level `id` column): groups are processed in sorted key
order (`groupby` sorts its keys), and each group is fitted and then
reported under the index of its `id` within the appearance-ordered
`ids` array (`np.where(ids == x.name)[0][0]`). -/
def workerTrace (rowIds : List GroupID) : List WorkerEvent :=
  let ids := uniqueInOrder rowIds
  (List.insertionSort (· ≤ ·) ids).flatMap
    (fun g => [WorkerEvent.fit g, WorkerEvent.report (List.indexOf g ids)])

/-- The job indices a worker reports, in the order it reports them. -/
def workerJobSeq (rowIds : List GroupID) : List ℕ :=
  (workerTrace rowIds).filterMap
    (fun e => match e with
      | WorkerEvent.report j => some j
      | WorkerEvent.fit _ => none)

/-!
## Aggregator: `pd.concat(predictions_df_list)`
(src/Base/BaseModeler.py:147)

The per-worker prediction frames, keyed by GroupID, are merged by
plain concatenation.  `pd.concat` is called without
`verify_integrity`, so it performs no duplicate check.
-/

/-- The merge of the per-worker result maps: row concatenation. -/
def merge_results (results : List (List (GroupID × ℕ))) :
    List (GroupID × ℕ) :=
  results.flatten

/-!
## Schedule independence of the pipeline result

`pool.starmap` hands partition `w` to worker `w` and returns the
workers' outputs indexed by worker, whatever order the workers finish
in; each worker builds its own result map as its jobs complete.  A
run's interleaving is a completion schedule: the global order of
(worker slot, job index) completion events.
-/

/-- A schedule is an actual interleaving of a run: restricted to each
worker slot it lists that worker's job indices `0, 1, ...` in order,
and every event names a real slot. -/
def schedule_valid (parts : List (List (GroupID × ℕ)))
    (sched : List (ℕ × ℕ)) : Bool :=
  ((List.range parts.length).all (fun w =>
    ((sched.filter (fun e => e.1 == w)).map Prod.snd)
      == List.range (parts.getD w []).length)) &&
  sched.all (fun e => decide (e.1 < parts.length))

/-- Worker `w`'s result map, accumulated as its completion events
fire: one `(GroupID, fit_predict result)` row per event of slot `w`. -/
def worker_results (fit : ℕ → ℕ) (parts : List (List (GroupID × ℕ)))
    (sched : List (ℕ × ℕ)) (w : ℕ) : List (GroupID × ℕ) :=
  (sched.filter (fun e => e.1 == w)).map
    (fun e => (((parts.getD w []).getD e.2 (0, 0)).1,
               fit ((parts.getD w []).getD e.2 (0, 0)).2))

/-- One pipeline run: sort and group the rows (`groupby('id')`), split
them with `array_split`, run the workers under the given completion
schedule, and concatenate the per-worker outputs in worker order, as
`pool.starmap` + `pd.concat` do. -/
def parallel_run (fit : ℕ → ℕ) (rows : List (GroupID × ℕ)) (n : ℕ)
    (sched : List (ℕ × ℕ)) : List (GroupID × ℕ) :=
  let parts := array_split
    (List.insertionSort (fun a b => a.1 ≤ b.1) rows) n
  ((List.range n).map (worker_results fit parts sched)).flatten

/-! ## Theorems -/
theorem length_splitBySizes {α : Type} :
    ∀ (ss : List ℕ) (l : List α), (splitBySizes l ss).length = ss.length := by
  intro ss
  induction ss with
  | nil => intro l; rfl
  | cons s rest ih => intro l; simp [splitBySizes, ih]

theorem sum_range_map_add_ite (q r : ℕ) :
    ∀ n : ℕ,
      ((List.range n).map (fun i => q + if i < r then 1 else 0)).sum =
        n * q + min r n := by
  intro n
  induction n with
  | zero => simp
  | succ n ih =>
      rw [List.range_succ, List.map_append, List.sum_append, ih]
      simp only [List.map_cons, List.map_nil, List.sum_cons, List.sum_nil]
      by_cases h : n < r
      · rw [if_pos h]
        have h1 : min r n = n := Nat.min_eq_right (Nat.le_of_lt h)
        have h2 : min r (n + 1) = n + 1 := Nat.min_eq_right h
        rw [h1, h2]
        ring
      · rw [if_neg h]
        have hr : r ≤ n := Nat.le_of_not_lt h
        have h1 : min r n = r := Nat.min_eq_left hr
        have h2 : min r (n + 1) = r := Nat.min_eq_left (Nat.le_succ_of_le hr)
        rw [h1, h2]
        ring

theorem sum_split_sizes (L n : ℕ) (hn : n ≠ 0) : (split_sizes L n).sum = L := by
  unfold split_sizes
  rw [sum_range_map_add_ite]
  have hlt : L % n < n := Nat.mod_lt L (Nat.pos_of_ne_zero hn)
  rw [Nat.min_eq_left (Nat.le_of_lt hlt)]
  have := Nat.div_add_mod L n
  omega

theorem flatten_splitBySizes {α : Type} :
    ∀ (ss : List ℕ) (l : List α), l.length ≤ ss.sum →
      (splitBySizes l ss).flatten = l := by
  intro ss
  induction ss with
  | nil =>
      intro l h
      simp only [List.sum_nil, Nat.le_zero, List.length_eq_zero] at h
      simp [h, splitBySizes]
  | cons s rest ih =>
      intro l h
      simp only [List.sum_cons] at h
      have hdrop : (l.drop s).length ≤ rest.sum := by
        simp only [List.length_drop]; omega
      simp [splitBySizes, List.flatten_cons, ih _ hdrop]

theorem map_length_splitBySizes {α : Type} :
    ∀ (ss : List ℕ) (l : List α), ss.sum ≤ l.length →
      (splitBySizes l ss).map List.length = ss := by
  intro ss
  induction ss with
  | nil => intro l _; rfl
  | cons s rest ih =>
      intro l h
      simp only [List.sum_cons] at h
      have hs : s ≤ l.length := by omega
      have hdrop : rest.sum ≤ (l.drop s).length := by
        simp only [List.length_drop]; omega
      simp [splitBySizes, List.length_take, Nat.min_eq_left hs, ih _ hdrop]

theorem array_split_length {α : Type} (l : List α) (n : ℕ) :
    (array_split l n).length = n := by
  unfold array_split
  rw [length_splitBySizes]
  simp [split_sizes]

theorem array_split_flatten {α : Type} (l : List α) (n : ℕ) (hn : n ≠ 0) :
    (array_split l n).flatten = l := by
  unfold array_split
  exact flatten_splitBySizes _ _ (by rw [sum_split_sizes _ _ hn])

theorem array_split_map_length {α : Type} (l : List α) (n : ℕ) (hn : n ≠ 0) :
    (array_split l n).map List.length = split_sizes l.length n := by
  unfold array_split
  exact map_length_splitBySizes _ _ (by rw [sum_split_sizes _ _ hn])

theorem array_split_chunk_length {α : Type} (l : List α) (n : ℕ) (hn : n ≠ 0)
    (p : List α) (hp : p ∈ array_split l n) :
    p.length = l.length / n ∨ p.length = l.length / n + 1 := by
  have hmem : p.length ∈ (array_split l n).map List.length :=
    List.mem_map_of_mem _ hp
  rw [array_split_map_length l n hn] at hmem
  unfold split_sizes at hmem
  rcases List.mem_map.mp hmem with ⟨i, _, hi⟩
  by_cases h : i < l.length % n
  · right; simp [h] at hi; omega
  · left; simp [h] at hi; omega

theorem array_split_has_empty_iff (l : List GroupID) (n : ℕ) (hn : n ≠ 0) :
    ((array_split l n).any List.isEmpty = true) ↔ l.length < n := by
  rw [List.any_eq_true]
  constructor
  · rintro ⟨p, hp, hpe⟩
    rw [List.isEmpty_iff] at hpe
    rcases array_split_chunk_length l n hn p hp with h | h
    · have h0 : l.length / n = 0 := by rw [hpe] at h; simpa using h.symm
      exact (Nat.div_eq_zero_iff (Nat.pos_of_ne_zero hn)).mp h0
    · rw [hpe] at h; simp at h
  · intro hlt
    have hsize : (0 : ℕ) ∈ split_sizes l.length n := by
      unfold split_sizes
      refine List.mem_map.mpr ⟨n - 1, List.mem_range.mpr (by omega), ?_⟩
      have hd : l.length / n = 0 := Nat.div_eq_of_lt hlt
      have hm : l.length % n = l.length := Nat.mod_eq_of_lt hlt
      rw [hd, hm, if_neg (by omega)]
    rw [← array_split_map_length l n hn] at hsize
    rcases List.mem_map.mp hsize with ⟨p, hp, hp0⟩
    exact ⟨p, hp, by rw [List.isEmpty_iff, ← List.length_eq_zero, hp0]⟩

/-- C4 (amended): the setup of `parallel_fit_predict` fails exactly
when the worker count is 0 or the input has fewer groups than workers
(the empty input being the special case `0 < n`), and a failed setup
performs no fit call at all. -/
theorem setup_partitions_fails_iff (l : List GroupID) (n : ℕ) :
    (setup_fails l n = true ↔ n = 0 ∨ l.length < n) ∧
    (setup_fails l n = true → pipeline_fit_calls l n = []) := by
  constructor
  · by_cases hn : n = 0
    · simp [setup_fails, setup_partitions, hn]
    · rw [← array_split_has_empty_iff l n hn]
      by_cases hany : (array_split l n).any List.isEmpty = true
      · simp [setup_fails, setup_partitions, hn, hany]
      · simp [setup_fails, setup_partitions, hn, hany]
  · intro hf
    unfold setup_fails at hf
    unfold pipeline_fit_calls
    cases h : setup_partitions l n with
    | error e => rfl
    | ok parts => rw [h] at hf; simp at hf

/-- C4, counterexample to the claim as stated: with worker count 2 and
the non-empty single-group input `[5]`, setup still fails (the second
split is empty and its `pd.concat` raises), so failure is not
restricted to `N ≤ 0` or an empty input. -/
theorem setup_fails_on_nonempty_input :
    setup_fails [5] 2 = true ∧ ([5] : List GroupID) ≠ [] ∧ (0 : ℕ) < 2 := by
  refine ⟨?_, by decide, by decide⟩
  rfl

/-- C3: for a non-empty duplicate-free group collection and worker
count `n ≥ 1`, `np.array_split` produces exactly `n` partitions whose
group counts differ by at most one, whose GroupID sets are pairwise
disjoint, and whose union is the input set. -/
theorem array_split_balanced_disjoint_cover (l : List GroupID) (n : ℕ)
    (hn : 1 ≤ n) (hne : l ≠ []) (hnd : l.Nodup) :
    (array_split l n).length = n ∧
    (∀ p ∈ array_split l n, ∀ q ∈ array_split l n,
      p.length ≤ q.length + 1) ∧
    List.Pairwise List.Disjoint (array_split l n) ∧
    (∀ x : GroupID, x ∈ l ↔ ∃ p ∈ array_split l n, x ∈ p) := by
  have hn0 : n ≠ 0 := by omega
  have hfl := array_split_flatten l n hn0
  refine ⟨array_split_length l n, ?_, ?_, ?_⟩
  · intro p hp q hq
    rcases array_split_chunk_length l n hn0 p hp with h | h <;>
      rcases array_split_chunk_length l n hn0 q hq with h' | h' <;> omega
  · have hflnd : (array_split l n).flatten.Nodup := by rw [hfl]; exact hnd
    exact (List.nodup_flatten.mp hflnd).2
  · intro x
    have : x ∈ l ↔ x ∈ (array_split l n).flatten := by rw [hfl]
    rw [this, List.mem_flatten]

/-- Witness for `array_split_balanced_disjoint_cover` at the concrete
input `[3, 1, 2]` with 2 workers. -/
theorem array_split_balanced_disjoint_cover_witness :
    (1 ≤ 2 ∧ ([3, 1, 2] : List GroupID) ≠ [] ∧
      ([3, 1, 2] : List GroupID).Nodup) ∧
    ((array_split ([3, 1, 2] : List GroupID) 2).length = 2 ∧
    (∀ p ∈ array_split ([3, 1, 2] : List GroupID) 2,
      ∀ q ∈ array_split ([3, 1, 2] : List GroupID) 2,
        p.length ≤ q.length + 1) ∧
    List.Pairwise List.Disjoint (array_split ([3, 1, 2] : List GroupID) 2) ∧
    (∀ x : GroupID, x ∈ ([3, 1, 2] : List GroupID) ↔
      ∃ p ∈ array_split ([3, 1, 2] : List GroupID) 2, x ∈ p)) :=
  ⟨⟨by decide, by decide, by decide⟩,
    array_split_balanced_disjoint_cover [3, 1, 2] 2 (by decide) (by decide)
      (by decide)⟩

/-- C1: an `update(proc_num, job_num)` call reports job index
`job_num` if and only if, after that call's matrix write, every slot
whose job count exceeds `job_num` has a timestamp at
`(job_num, slot)`; slots with `job_num` or fewer jobs are not
consulted. -/
theorem update_reports_iff_all_relevant_slots_done (cfg : PrinterConfig)
    (st : PrinterState) (proc_num job_num : ℕ) :
    (update cfg st proc_num job_num).2 = some job_num ↔
      ∀ p : ℕ, p < cfg.total_procs → job_num < cfg.proc_job p →
        ((update cfg st proc_num job_num).1.mat job_num p).isSome = true := by
  show (if barrier cfg _ job_num then some job_num else none) = some job_num ↔ _
  constructor
  · intro h p hp hjob
    by_cases hb : barrier cfg
        (writeCell st.mat job_num proc_num (st.clock : ℤ)) job_num = true
    · have := List.all_eq_true.mp hb p
        (List.mem_filter.mpr ⟨List.mem_range.mpr hp, by simpa using hjob⟩)
      simpa using this
    · rw [if_neg (by simpa using hb)] at h
      exact absurd h (by simp)
  · intro h
    have hb : barrier cfg
        (writeCell st.mat job_num proc_num (st.clock : ℤ)) job_num = true := by
      apply List.all_eq_true.mpr
      intro p hp
      rcases List.mem_filter.mp hp with ⟨hpr, hpj⟩
      exact h p (List.mem_range.mp hpr) (by simpa using hpj)
    rw [if_pos hb]

theorem writeCell_isSome (m : ℕ → ℕ → Option ℤ) (job proc : ℕ) (t : ℤ)
    (j p : ℕ) :
    ((writeCell m job proc t) j p).isSome = true ↔
      (j = job ∧ p = proc) ∨ (m j p).isSome = true := by
  unfold writeCell
  by_cases h : j = job ∧ p = proc <;> simp [h]

theorem barrier_mono (cfg : PrinterConfig) (m : ℕ → ℕ → Option ℤ)
    (job proc : ℕ) (t : ℤ) (K : ℕ) (h : barrier cfg m K = true) :
    barrier cfg (writeCell m job proc t) K = true := by
  unfold barrier at h ⊢
  apply List.all_eq_true.mpr
  intro p' hp'
  have hm := List.all_eq_true.mp h p' hp'
  simp only at hm ⊢
  rw [writeCell_isSome]
  right
  exact hm

theorem barrier_other_row (cfg : PrinterConfig) (m : ℕ → ℕ → Option ℤ)
    (job proc : ℕ) (t : ℤ) (K : ℕ) (hne : job ≠ K) :
    barrier cfg (writeCell m job proc t) K = barrier cfg m K := by
  unfold barrier
  have hrow : (fun p => ((writeCell m job proc t) K p).isSome) =
      (fun p => (m K p).isSome) := by
    funext p
    unfold writeCell
    rw [if_neg]
    rintro ⟨hK, -⟩
    exact hne hK.symm
  rw [hrow]

theorem update_fst_mat (cfg : PrinterConfig) (st : PrinterState)
    (proc_num job_num : ℕ) :
    (update cfg st proc_num job_num).1.mat =
      writeCell st.mat job_num proc_num (st.clock : ℤ) := rfl

theorem runUpdates_mat_isSome (cfg : PrinterConfig) :
    ∀ (calls : List (ℕ × ℕ)) (st : PrinterState) (j p : ℕ),
      ((runUpdates cfg st calls).1.mat j p).isSome = true ↔
        ((st.mat j p).isSome = true ∨ (p, j) ∈ calls) := by
  intro calls
  induction calls with
  | nil => intro st j p; simp [runUpdates]
  | cons c rest ih =>
      intro st j p
      show ((runUpdates cfg (update cfg st c.1 c.2).1 rest).1.mat j p).isSome
          = true ↔ _
      rw [ih, update_fst_mat, writeCell_isSome]
      constructor
      · rintro ((⟨h1, h2⟩ | hst) | hrest)
        · right
          rw [h2, h1]
          exact List.mem_cons_self _ _
        · exact Or.inl hst
        · exact Or.inr (List.mem_cons_of_mem _ hrest)
      · rintro (hst | hmem)
        · exact Or.inl (Or.inr hst)
        · rcases List.mem_cons.mp hmem with heq | hrest
          · refine Or.inl (Or.inl ?_)
            have h1 : p = c.1 := congrArg Prod.fst heq
            have h2 : j = c.2 := congrArg Prod.snd heq
            exact ⟨h2, h1⟩
          · exact Or.inr hrest

theorem runUpdates_cons (cfg : PrinterConfig) (st : PrinterState)
    (c : ℕ × ℕ) (rest : List (ℕ × ℕ)) :
    (runUpdates cfg st (c :: rest)).2 =
      (update cfg st c.1 c.2).2.toList ++
        (runUpdates cfg (update cfg st c.1 c.2).1 rest).2 := rfl

theorem update_snd (cfg : PrinterConfig) (st : PrinterState)
    (proc_num job_num : ℕ) :
    (update cfg st proc_num job_num).2 =
      if barrier cfg (writeCell st.mat job_num proc_num (st.clock : ℤ))
          job_num
        then some job_num else none := rfl

theorem count_reports_le_aux (cfg : PrinterConfig) (K : ℕ) :
    ∀ (calls : List (ℕ × ℕ)) (st : PrinterState),
      calls.Nodup →
      (∀ c ∈ calls, c.1 < cfg.total_procs) →
      (∀ c ∈ calls, c.2 < cfg.proc_job c.1) →
      (∀ c ∈ calls, ¬ (st.mat c.2 c.1).isSome = true) →
      (runUpdates cfg st calls).2.count K ≤
        (if barrier cfg st.mat K = true then 0 else 1) := by
  intro calls
  induction calls with
  | nil =>
      intro st _ _ _ _
      show List.count K [] ≤ _
      rw [List.count_nil]
      split <;> omega
  | cons c rest ih =>
      intro st hnd hproc hvalid hfresh
      obtain ⟨p₀, j₀⟩ := c
      have hndp := List.nodup_cons.mp hnd
      have hcnotmem : (p₀, j₀) ∉ rest := hndp.1
      have hndr : rest.Nodup := hndp.2
      have hpr : ∀ c' ∈ rest, c'.1 < cfg.total_procs :=
        fun c' h => hproc c' (List.mem_cons_of_mem _ h)
      have hvr : ∀ c' ∈ rest, c'.2 < cfg.proc_job c'.1 :=
        fun c' h => hvalid c' (List.mem_cons_of_mem _ h)
      have hfr : ∀ c' ∈ rest,
          ¬ ((update cfg st p₀ j₀).1.mat c'.2 c'.1).isSome = true := by
        intro c' hc' hsome
        rw [update_fst_mat, writeCell_isSome] at hsome
        rcases hsome with ⟨h1, h2⟩ | hsome
        · apply hcnotmem
          have hc : c' = (p₀, j₀) := by
            rcases c' with ⟨a, b⟩
            simp only at h1 h2
            rw [h1, h2]
          rw [← hc]
          exact hc'
        · exact hfresh c' (List.mem_cons_of_mem _ hc') hsome
      have htail := ih (update cfg st p₀ j₀).1 hndr hpr hvr hfr
      rw [runUpdates_cons, List.count_append]
      dsimp only
      by_cases hbK : barrier cfg st.mat K = true
      · rw [if_pos hbK]
        have hjK : j₀ ≠ K := by
          intro heq
          apply hfresh (p₀, j₀) (List.mem_cons_self _ _)
          have hrel : p₀ ∈ non_min_procs cfg K := by
            apply List.mem_filter.mpr
            refine ⟨List.mem_range.mpr (hproc (p₀, j₀)
              (List.mem_cons_self _ _)), ?_⟩
            have := hvalid (p₀, j₀) (List.mem_cons_self _ _)
            simp only at this
            rw [heq] at this
            simpa using this
          have := List.all_eq_true.mp hbK p₀ hrel
          simp only at this
          rw [heq]
          exact this
        have hhead : ((update cfg st p₀ j₀).2.toList).count K = 0 := by
          rw [update_snd]
          split
          · simp [List.count_cons, hjK]
          · simp
        have hb' : barrier cfg (update cfg st p₀ j₀).1.mat K = true := by
          rw [update_fst_mat]
          exact barrier_mono cfg st.mat j₀ p₀ _ K hbK
        rw [hb', if_pos rfl] at htail
        omega
      · rw [if_neg hbK]
        by_cases hjK : j₀ = K
        · subst hjK
          by_cases hem : barrier cfg
              (writeCell st.mat j₀ p₀ (st.clock : ℤ)) j₀ = true
          · have hhead : ((update cfg st p₀ j₀).2.toList).count j₀ ≤ 1 := by
              rw [update_snd, if_pos hem]
              simp [List.count_cons]
            have hb' : barrier cfg (update cfg st p₀ j₀).1.mat j₀ = true := by
              rw [update_fst_mat]
              exact hem
            rw [hb', if_pos rfl] at htail
            omega
          · have hhead : ((update cfg st p₀ j₀).2.toList).count j₀ = 0 := by
              rw [update_snd, if_neg hem]
              simp
            have htail' : (runUpdates cfg (update cfg st p₀ j₀).1 rest).2.count
                j₀ ≤ 1 := by
              refine le_trans htail ?_
              split <;> omega
            omega
        · have hhead : ((update cfg st p₀ j₀).2.toList).count K = 0 := by
            rw [update_snd]
            split
            · simp [List.count_cons, hjK]
            · simp
          have hb' : barrier cfg (update cfg st p₀ j₀).1.mat K = false := by
            rw [update_fst_mat, barrier_other_row cfg st.mat j₀ p₀ _ K hjK]
            simpa using hbK
          rw [hb'] at htail
          simp only [Bool.false_eq_true, if_false] at htail
          omega

/-- C2, counterexample to the claim as stated: with slots 0 and 1
holding 1 and 2 jobs, the duplicate-free call sequence
`[(1,1), (0,1)]` makes `update` invoke `print_parallel_message` twice
for job index 1 — the second call writes a cell in row 1 for slot 0,
which has no job at index 1, and re-satisfies the barrier. -/
theorem update_reports_twice_on_stray_call :
    (reports ⟨2, fun p => if p = 0 then 1 else 2⟩ [(1, 1), (0, 1)]).count 1
        = 2 ∧
      ([(1, 1), (0, 1)] : List (ℕ × ℕ)).Nodup ∧
      (∀ c ∈ ([(1, 1), (0, 1)] : List (ℕ × ℕ)), c.1 < 2) := by
  refine ⟨rfl, by decide, by decide⟩

/-- C2 (amended): over any duplicate-free sequence of `update` calls
made by real slots on their own jobs (`proc_num < total_procs` and
`job_num < proc_job_dict[proc_num]`), each job index is reported at
most once. -/
theorem reports_at_most_once (cfg : PrinterConfig) (calls : List (ℕ × ℕ))
    (K : ℕ) (hnd : calls.Nodup)
    (hproc : ∀ c ∈ calls, c.1 < cfg.total_procs)
    (hvalid : ∀ c ∈ calls, c.2 < cfg.proc_job c.1) :
    (reports cfg calls).count K ≤ 1 := by
  have h := count_reports_le_aux cfg K calls initPrinterState hnd hproc hvalid
    (by intro c _ hsome; simp [initPrinterState] at hsome)
  unfold reports
  refine le_trans h ?_
  split <;> omega

/-- Witness for `reports_at_most_once`: two slots with two jobs each,
all four completions reported once, job index 0 reported at most
once. -/
theorem reports_at_most_once_witness :
    (([(0, 0), (1, 0), (0, 1), (1, 1)] : List (ℕ × ℕ)).Nodup ∧
      (∀ c ∈ ([(0, 0), (1, 0), (0, 1), (1, 1)] : List (ℕ × ℕ)), c.1 < 2) ∧
      (∀ c ∈ ([(0, 0), (1, 0), (0, 1), (1, 1)] : List (ℕ × ℕ)), c.2 < 2)) ∧
    (reports ⟨2, fun _ => 2⟩ [(0, 0), (1, 0), (0, 1), (1, 1)]).count 0 ≤ 1 :=
  ⟨⟨by decide, by decide, by decide⟩,
    reports_at_most_once ⟨2, fun _ => 2⟩ [(0, 0), (1, 0), (0, 1), (1, 1)] 0
      (by decide) (by decide) (by decide)⟩

set_option maxRecDepth 10000

theorem strConcat_length (l : List String) :
    (strConcat l).length = (l.map String.length).sum := by
  induction l with
  | nil => rfl
  | cons s t ih =>
      simp only [strConcat, List.foldr_cons, String.length_append,
        List.map_cons, List.sum_cons] at ih ⊢
      omega

theorem pyPadLeft_length (w : ℕ) (s : String) (h : s.length ≤ w) :
    (pyPadLeft w s).length = w := by
  simp only [pyPadLeft, String.length_append, String.length_mk,
    List.length_replicate]
  omega

theorem pyPadRightDash_length (w : ℕ) (s : String) (h : s.length ≤ w) :
    (pyPadRightDash w s).length = w := by
  simp only [pyPadRightDash, String.length_append, String.length_mk,
    List.length_replicate]
  omega

theorem strConcat_map_length {α : Type} (f : α → String) (k : ℕ) :
    ∀ (l : List α), (∀ a ∈ l, (f a).length = k) →
      (strConcat (l.map f)).length = l.length * k := by
  intro l
  induction l with
  | nil => intro _; simp [strConcat]
  | cons a t ih =>
      intro h
      simp only [List.map_cons, strConcat, List.foldr_cons,
        String.length_append, List.length_cons]
      have ha := h a (List.mem_cons_self _ _)
      have ht := ih (fun b hb => h b (List.mem_cons_of_mem _ hb))
      simp only [strConcat] at ht
      rw [ha, ht]
      ring

/-- C6 (amended): the worker columns all get width
`(120 - 12 - 17) / N` and the time column absorbs the remainder; the
divider line is exactly 120 characters, and a message line is exactly
120 characters provided each formatted value fits inside its column's
content width (which needs `process_col_len ≥ 3`, i.e. `N ≤ 30`). -/
theorem configure_prints_line_widths (n : ℕ) (timeS jobS : String)
    (procS : List String) (hn : 1 ≤ n)
    (hpc : 3 ≤ process_col_len n)
    (htime : timeS.length ≤ time_col_len n - 4)
    (hjob : jobS.length ≤ job_col_len - 3)
    (hproc : ∀ s ∈ procS, s.length ≤ process_col_len n - 3)
    (hcnt : procS.length = n) :
    process_col_len n = (120 - 12 - 17) / n ∧
    time_col_len n = 12 + (120 - 12 - 17) % n ∧
    (parallel_divider n).length = 120 ∧
    (parallel_message_fmt n timeS jobS procS).length = 120 := by
  refine ⟨rfl, rfl, ?_, ?_⟩
  · unfold parallel_divider
    have hcols : (strConcat ((List.range n).map
        (fun _ => pyPadRightDash (process_col_len n - 1) "" ++ "+"))).length
        = n * process_col_len n := by
      rw [strConcat_map_length
        (fun _ => pyPadRightDash (process_col_len n - 1) "" ++ "+")
        (process_col_len n) (List.range n) ?_, List.length_range]
      intro a _
      rw [String.length_append, pyPadRightDash_length _ _ (by simp)]
      have h1 : (1:ℕ) ≤ process_col_len n := by omega
      simp only [String.length, List.length_cons, List.length_nil]
      omega
    simp only [String.length_append]
    rw [pyPadRightDash_length _ _ (by simp),
      pyPadRightDash_length _ _ (by simp), hcols]
    unfold time_col_len job_col_len process_col_len at *
    have hdm := Nat.div_add_mod (120 - 12 - 17) n
    simp only [String.length, List.length_cons, List.length_nil]
    omega
  · unfold parallel_message_fmt
    have hcols : (strConcat (procS.map
        (fun s => " " ++ pyPadLeft (process_col_len n - 3) s ++ " |"))).length
        = procS.length * process_col_len n := by
      rw [strConcat_map_length
        (fun s => " " ++ pyPadLeft (process_col_len n - 3) s ++ " |")
        (process_col_len n) procS ?_]
      intro a ha
      rw [String.length_append, String.length_append,
        pyPadLeft_length _ _ (hproc a ha)]
      simp only [String.length, List.length_cons, List.length_nil]
      omega
    simp only [String.length_append]
    rw [pyPadLeft_length _ _ htime, pyPadLeft_length _ _ hjob, hcols, hcnt]
    unfold time_col_len job_col_len process_col_len at *
    have hdm := Nat.div_add_mod (120 - 12 - 17) n
    simp only [String.length, List.length_cons, List.length_nil]
    omega

/-- Witness for `configure_prints_line_widths` with 4 workers and
typical cell contents. -/
theorem configure_prints_line_widths_witness :
    ((1 : ℕ) ≤ 4 ∧ (3 : ℕ) ≤ process_col_len 4 ∧
      ("12:34:56".length ≤ time_col_len 4 - 4) ∧
      ("3 / 10".length ≤ job_col_len - 3) ∧
      (∀ s ∈ ["0:00:05", "0:00:06", "nan", "0:00:07"],
        String.length s ≤ process_col_len 4 - 3)) ∧
    (process_col_len 4 = (120 - 12 - 17) / 4 ∧
      time_col_len 4 = 12 + (120 - 12 - 17) % 4 ∧
      (parallel_divider 4).length = 120 ∧
      (parallel_message_fmt 4 "12:34:56" "3 / 10"
        ["0:00:05", "0:00:06", "nan", "0:00:07"]).length = 120) :=
  ⟨⟨by decide, by decide, by decide, by decide, by decide⟩,
    configure_prints_line_widths 4 "12:34:56" "3 / 10"
      ["0:00:05", "0:00:06", "nan", "0:00:07"] (by decide) (by decide)
      (by decide) (by decide) (by decide) rfl⟩

/-- C6, counterexample to the claim as stated: with 16 workers the
title line emitted at run start by `print_notify_parallel_begin` is
143 characters long, not 120 — the process titles no longer fit in
their `(120 - 12 - 17) / 16 = 5`-character columns. -/
theorem parallel_title_width_not_120 :
    (parallel_title 16).length = 143 ∧ (parallel_title 16).length ≠ 120 ∧
      (1 : ℕ) ≤ 16 := by
  refine ⟨by decide, by decide, by decide⟩

theorem runUpdates_cells_are_timestamps (cfg : PrinterConfig) :
    ∀ (calls : List (ℕ × ℕ)) (st : PrinterState),
      (∀ j p, st.mat j p = none ∨ ∃ t : ℕ, st.mat j p = some (t : ℤ)) →
      ∀ j p, (runUpdates cfg st calls).1.mat j p = none ∨
        ∃ t : ℕ, (runUpdates cfg st calls).1.mat j p = some (t : ℤ) := by
  intro calls
  induction calls with
  | nil => intro st h j p; exact h j p
  | cons c rest ih =>
      intro st h j p
      show (runUpdates cfg (update cfg st c.1 c.2).1 rest).1.mat j p = none ∨ _
      apply ih
      intro j' p'
      rw [update_fst_mat]
      unfold writeCell
      by_cases hc : j' = c.2 ∧ p' = c.1
      · rw [if_pos hc]
        exact Or.inr ⟨st.clock, rfl⟩
      · rw [if_neg hc]
        exact h j' p'

/-- C10 (amended): on every state reachable by `update` calls, every
ProgressMatrix cell is NaN or a timestamp, never -1, so the guard
`current_job_times != -1` is true for every cell and the `'-'`
placeholder branch of the `np.where` is never produced; but a slot
with no job at the reported index does not get a duration rendered
from its NaN cell when the previous cell holds a timestamp: the eager
subtraction `current - prev` raises `TypeError` there, so the line is
not rendered at all.  Only when the previous cell is also NaN does the
entry render, as `nan`. -/
theorem where_guard_true_and_nan_sub_raises (cfg : PrinterConfig)
    (calls : List (ℕ × ℕ)) (j p : ℕ) (prev : Option ℤ) :
    cell_neq ((runUpdates cfg initPrinterState calls).1.mat j p) (-1)
        = true ∧
    whereEntry ((runUpdates cfg initPrinterState calls).1.mat j p) prev =
      (match cellSub ((runUpdates cfg initPrinterState calls).1.mat j p)
          prev with
        | Except.error e => Except.error e
        | Except.ok d => Except.ok (renderDelta d)) ∧
    ((runUpdates cfg initPrinterState calls).1.mat j p = none →
      ∀ tp : ℤ, prev = some tp →
        whereEntry ((runUpdates cfg initPrinterState calls).1.mat j p) prev
          = Except.error PyError.typeError) ∧
    ((runUpdates cfg initPrinterState calls).1.mat j p = none →
      prev = none →
      whereEntry ((runUpdates cfg initPrinterState calls).1.mat j p) prev
        = Except.ok "nan") := by
  have hneq : cell_neq
      ((runUpdates cfg initPrinterState calls).1.mat j p) (-1) = true := by
    have hcell := runUpdates_cells_are_timestamps cfg calls initPrinterState
      (by intro j' p'; exact Or.inl rfl) j p
    rcases hcell with h | ⟨t, h⟩
    · rw [h]; rfl
    · rw [h]
      unfold cell_neq
      simp only [decide_eq_true_eq]
      intro habs
      omega
  refine ⟨hneq, ?_, ?_, ?_⟩
  · unfold whereEntry
    cases hsub : cellSub ((runUpdates cfg initPrinterState calls).1.mat j p)
        prev with
    | error e => rfl
    | ok d => simp [hneq]
  · intro hnone tp hprev
    rw [hnone, hprev]
    rfl
  · intro hnone hpnone
    rw [hnone, hpnone]
    rfl

/-- Witness for `where_guard_true_and_nan_sub_raises`: after slot 0
reports job 0, the cell of slot 1 in row 0 is still NaN; its guard is
true and subtracting a timestamp from it raises. -/
theorem where_guard_true_and_nan_sub_raises_witness :
    cell_neq ((runUpdates ⟨2, fun _ => 1⟩ initPrinterState
        [(0, 0)]).1.mat 0 1) (-1) = true ∧
    whereEntry ((runUpdates ⟨2, fun _ => 1⟩ initPrinterState
        [(0, 0)]).1.mat 0 1) (some 0) =
      (match cellSub ((runUpdates ⟨2, fun _ => 1⟩ initPrinterState
          [(0, 0)]).1.mat 0 1) (some 0) with
        | Except.error e => Except.error e
        | Except.ok d => Except.ok (renderDelta d)) ∧
    ((runUpdates ⟨2, fun _ => 1⟩ initPrinterState
        [(0, 0)]).1.mat 0 1 = none →
      ∀ tp : ℤ, (some 0 : Option ℤ) = some tp →
        whereEntry ((runUpdates ⟨2, fun _ => 1⟩ initPrinterState
          [(0, 0)]).1.mat 0 1) (some 0)
          = Except.error PyError.typeError) ∧
    ((runUpdates ⟨2, fun _ => 1⟩ initPrinterState
        [(0, 0)]).1.mat 0 1 = none →
      (some 0 : Option ℤ) = none →
      whereEntry ((runUpdates ⟨2, fun _ => 1⟩ initPrinterState
        [(0, 0)]).1.mat 0 1) (some 0) = Except.ok "nan") :=
  where_guard_true_and_nan_sub_raises ⟨2, fun _ => 1⟩ [(0, 0)] 0 1 (some 0)

/-- C10, counterexample to the claim as stated: with job counts
`{0: 2, 1: 1}`, after both slots finish job 0, slot 0's completion of
job 1 satisfies the barrier (slot 1 is excluded) and invokes
`print_parallel_message(1)`; slot 1 has no job at index 1 (its row-1
cell is NaN while its row-0 cell holds a timestamp), and the eager
subtraction raises `TypeError` — nothing is rendered from the NaN
cell. -/
theorem progress_print_raises_on_uneven_partition :
    ((update ⟨2, fun p => if p = 0 then 2 else 1⟩
        (runUpdates ⟨2, fun p => if p = 0 then 2 else 1⟩ initPrinterState
          [(0, 0), (1, 0)]).1 0 1).2 = some 1) ∧
    ((runUpdates ⟨2, fun p => if p = 0 then 2 else 1⟩ initPrinterState
        [(0, 0), (1, 0), (0, 1)]).1.mat 1 1 = none) ∧
    (print_parallel_message ⟨2, fun p => if p = 0 then 2 else 1⟩ 0
        (runUpdates ⟨2, fun p => if p = 0 then 2 else 1⟩ initPrinterState
          [(0, 0), (1, 0), (0, 1)]).1 1
      = Except.error PyError.typeError) := by
  refine ⟨rfl, rfl, rfl⟩

/-- C7: every progress line actually emitted for job index `K` carries
the wall-clock time of evaluation, the `(K + 1, max_jobs)` completion
ratio, and one entry per worker slot holding the difference between
that slot's timestamp at `K` and its timestamp at `K - 1` (the run
start time when `K = 0`). -/
theorem progress_line_contents (cfg : PrinterConfig) (start_time : ℤ)
    (st : PrinterState) (K p : ℕ) (hp : p < cfg.total_procs)
    (msg : ℕ × (ℕ × ℕ) × List String)
    (hmsg : print_parallel_message cfg start_time st K = Except.ok msg) :
    msg.1 = st.clock ∧
    msg.2.1 = (K + 1, cfg.max_jobs) ∧
    msg.2.2.length = cfg.total_procs ∧
    (∀ tc tp : ℤ, st.mat K p = some tc → tc ≠ -1 →
      (if K = 0 then some start_time else st.mat (K - 1) p) = some tp →
      msg.2.2.getD p "" = toString (tc - tp)) := by
  unfold print_parallel_message at hmsg
  split at hmsg
  case isFalse hall => exact Except.noConfusion hmsg
  case isTrue hall =>
  cases Except.ok.inj hmsg
  refine ⟨rfl, rfl, ?_, ?_⟩
  · simp only [List.length_map, List.length_range]
  · intro tc tp htc hne1 htp
    have hlen : p < ((List.range cfg.total_procs).map
        (fun q => exceptGetD "" (whereEntry (st.mat K q)
          (prev_job_times start_time st K q)))).length := by
      simp only [List.length_map, List.length_range]
      exact hp
    show ((List.range cfg.total_procs).map
        (fun q => exceptGetD "" (whereEntry (st.mat K q)
          (prev_job_times start_time st K q)))).getD p "" = _
    rw [List.getD_eq_getElem _ _ hlen, List.getElem_map,
      List.getElem_range]
    have hprev : prev_job_times start_time st K p = some tp := by
      unfold prev_job_times
      exact htp
    rw [htc, hprev]
    have hg : cell_neq (some tc) (-1) = true := by
      unfold cell_neq
      simpa using hne1
    have hw : whereEntry (some tc) (some tp)
        = Except.ok (toString (tc - tp)) := by
      show (Except.ok (if cell_neq (some tc) (-1)
        then renderDelta (some (tc - tp)) else "-") :
          Except PyError String) = _
      rw [if_pos hg]
      rfl
    rw [hw]
    rfl

/-- Witness for `progress_line_contents`: one slot, timestamp 3 at
job 0 with run start 1, an actually emitted line rendering the
duration `2`. -/
theorem progress_line_contents_witness :
    ((0 : ℕ) < 1) ∧
    (print_parallel_message ⟨1, fun _ => 1⟩ 1
        ⟨fun j p => if j = 0 ∧ p = 0 then some 3 else none, 5⟩ 0
      = Except.ok (5, (1, 1), [toString ((3 : ℤ) - 1)])) ∧
    (((5, (1, 1), [toString ((3 : ℤ) - 1)]) :
        ℕ × (ℕ × ℕ) × List String).1 = 5 ∧
      ((5, (1, 1), [toString ((3 : ℤ) - 1)]) :
        ℕ × (ℕ × ℕ) × List String).2.2.getD 0 ""
        = toString ((3 : ℤ) - 1)) := by
  refine ⟨by decide, rfl, ?_, ?_⟩
  · exact (progress_line_contents ⟨1, fun _ => 1⟩ 1
      ⟨fun j p => if j = 0 ∧ p = 0 then some 3 else none, 5⟩ 0 0
      (by decide) (5, (1, 1), [toString ((3 : ℤ) - 1)]) rfl).1
  · exact (progress_line_contents ⟨1, fun _ => 1⟩ 1
      ⟨fun j p => if j = 0 ∧ p = 0 then some 3 else none, 5⟩ 0 0
      (by decide) (5, (1, 1), [toString ((3 : ℤ) - 1)]) rfl).2.2.2
      3 1 rfl (by decide) rfl

theorem uniqueInOrder_nodup (l : List GroupID) : (uniqueInOrder l).Nodup := by
  induction l with
  | nil => simp [uniqueInOrder]
  | cons x xs ih =>
      rw [uniqueInOrder]
      refine List.nodup_cons.mpr ⟨?_, ih.filter _⟩
      intro hmem
      have := List.of_mem_filter hmem
      simp at this

theorem filterMap_report_flatMap (f : GroupID → ℕ) :
    ∀ l : List GroupID,
      ((l.flatMap
          (fun g => [WorkerEvent.fit g, WorkerEvent.report (f g)])).filterMap
        (fun e => match e with
          | WorkerEvent.report j => some j
          | WorkerEvent.fit _ => none)) = l.map f := by
  intro l
  induction l with
  | nil => rfl
  | cons a t ih =>
      simp only [List.flatMap_cons, List.filterMap_append, List.map_cons,
        ih, List.filterMap_cons]
      rfl

theorem map_indexOf_self_eq_range (ids : List GroupID) (hnd : ids.Nodup) :
    ids.map (fun g => List.indexOf g ids) = List.range ids.length := by
  apply List.ext_getElem
  · simp
  · intro i h1 h2
    rw [List.getElem_map, List.getElem_range]
    exact List.indexOf_getElem hnd i (by simpa using h1)

/-- C8 (amended): for a partition whose distinct GroupIDs appear in
ascending order (as the sorted `groupby` of `parallel_fit_predict`
produces them), the worker fits each group and then reports its job
index, and the reported indices come out strictly increasing as
`0, 1, ..., jobCount - 1`, each equal to the group's position in the
processing order. -/
theorem worker_reports_in_order (rowIds : List GroupID)
    (hsort : List.Sorted (· < ·) (uniqueInOrder rowIds)) :
    workerJobSeq rowIds = List.range (uniqueInOrder rowIds).length ∧
    workerTrace rowIds =
      (List.range (uniqueInOrder rowIds).length).flatMap
        (fun i => [WorkerEvent.fit ((uniqueInOrder rowIds).getD i 0),
                   WorkerEvent.report i]) := by
  have hnd : (uniqueInOrder rowIds).Nodup := uniqueInOrder_nodup rowIds
  have hle : List.Sorted (· ≤ ·) (uniqueInOrder rowIds) :=
    hsort.imp (fun h => le_of_lt h)
  have hms : List.insertionSort (· ≤ ·) (uniqueInOrder rowIds) =
      uniqueInOrder rowIds := hle.insertionSort_eq
  have htrace : workerTrace rowIds =
      (uniqueInOrder rowIds).flatMap
        (fun g => [WorkerEvent.fit g,
                   WorkerEvent.report (List.indexOf g (uniqueInOrder rowIds))]) := by
    unfold workerTrace
    dsimp only
    rw [hms]
  have hmapeq : (uniqueInOrder rowIds).map
        (fun g => ([WorkerEvent.fit g,
          WorkerEvent.report (List.indexOf g (uniqueInOrder rowIds))] :
            List WorkerEvent)) =
      (List.range (uniqueInOrder rowIds).length).map
        (fun i => [WorkerEvent.fit ((uniqueInOrder rowIds).getD i 0),
                   WorkerEvent.report i]) := by
    apply List.ext_getElem
    · simp
    · intro i h1 h2
      rw [List.getElem_map, List.getElem_map, List.getElem_range]
      have hi : i < (uniqueInOrder rowIds).length := by simpa using h1
      rw [List.indexOf_getElem hnd i hi, List.getD_eq_getElem _ _ hi]
  constructor
  · unfold workerJobSeq
    rw [htrace, filterMap_report_flatMap, map_indexOf_self_eq_range _ hnd]
  · rw [htrace, List.flatMap_def, List.flatMap_def, hmapeq]

/-- C8, counterexample to the claim as stated: over a partition whose
distinct GroupIDs appear as `[1, 0]`, the worker processes group 0
first (sorted `groupby` order) but reports job index 1 for it, so the
reported indices come out `[1, 0]` — not strictly increasing and not
equal to each group's processing position. -/
theorem worker_reports_out_of_order :
    workerJobSeq [1, 0] = [1, 0] ∧
      workerJobSeq [1, 0] ≠ List.range (uniqueInOrder [1, 0]).length := by
  refine ⟨by decide, by decide⟩

/-- Witness for `worker_reports_in_order`: a sorted partition
`[0, 1, 2]` reports job indices `0, 1, 2` in order, after fitting each
group. -/
theorem worker_reports_in_order_witness :
    List.Sorted (· < ·) (uniqueInOrder [0, 1, 2]) ∧
    (workerJobSeq [0, 1, 2] = List.range (uniqueInOrder [0, 1, 2]).length ∧
      workerTrace [0, 1, 2] =
        (List.range (uniqueInOrder [0, 1, 2]).length).flatMap
          (fun i => [WorkerEvent.fit ((uniqueInOrder [0, 1, 2]).getD i 0),
                     WorkerEvent.report i])) :=
  ⟨by decide, worker_reports_in_order [0, 1, 2] (by decide)⟩

/-- C5, counterexample to the claim as stated: when two workers both
report a result for GroupID 5, the merge does not fail — it returns a
result collection that simply contains GroupID 5 twice. -/
theorem merge_results_keeps_duplicates :
    merge_results [[(5, 10)], [(5, 11)]] = [(5, 10), (5, 11)] ∧
      ((merge_results [[(5, 10)], [(5, 11)]]).map Prod.fst).count 5 = 2 := by
  refine ⟨rfl, by decide⟩

/-- C5 (amended): the merge step never fails; it concatenates every
worker's results (a row is in the merge exactly when some worker
produced it), and when the workers' GroupID sets are pairwise disjoint
(and each duplicate-free) the result is a well-keyed map: its GroupID
column is duplicate-free. -/
theorem merge_results_disjoint_is_keyed
    (results : List (List (GroupID × ℕ)))
    (hnd : ∀ r ∈ results, (r.map Prod.fst).Nodup)
    (hdisj : List.Pairwise
      (fun r s => ∀ g ∈ r.map Prod.fst, g ∉ s.map Prod.fst) results) :
    ((merge_results results).map Prod.fst).Nodup ∧
    (∀ pr : GroupID × ℕ,
      pr ∈ merge_results results ↔ ∃ r ∈ results, pr ∈ r) := by
  constructor
  · unfold merge_results
    rw [List.map_flatten]
    apply List.nodup_flatten.mpr
    constructor
    · intro l hl
      rcases List.mem_map.mp hl with ⟨r, hr, rfl⟩
      exact hnd r hr
    · rw [List.pairwise_map]
      exact hdisj
  · intro pr
    unfold merge_results
    exact List.mem_flatten

/-- Witness for `merge_results_disjoint_is_keyed`: two workers with
disjoint GroupID sets merge into a duplicate-free keyed collection. -/
theorem merge_results_disjoint_is_keyed_witness :
    ((∀ r ∈ [[((0 : GroupID), (10 : ℕ))], [(1, 11)]],
        (r.map Prod.fst).Nodup) ∧
      List.Pairwise
        (fun r s => ∀ g ∈ r.map Prod.fst, g ∉ s.map Prod.fst)
        [[((0 : GroupID), (10 : ℕ))], [(1, 11)]]) ∧
    (((merge_results [[((0 : GroupID), (10 : ℕ))], [(1, 11)]]).map
        Prod.fst).Nodup ∧
      (∀ pr : GroupID × ℕ,
        pr ∈ merge_results [[((0 : GroupID), (10 : ℕ))], [(1, 11)]] ↔
          ∃ r ∈ [[((0 : GroupID), (10 : ℕ))], [(1, 11)]], pr ∈ r)) :=
  ⟨⟨by decide, by decide⟩,
    merge_results_disjoint_is_keyed [[(0, 10)], [(1, 11)]]
      (by decide) (by decide)⟩

theorem list_eq_pairs_of_fst_const (w : ℕ) :
    ∀ l : List (ℕ × ℕ), (∀ e ∈ l, e.1 = w) →
      l = (l.map Prod.snd).map (fun j => (w, j)) := by
  intro l
  induction l with
  | nil => intro _; rfl
  | cons e t ih =>
      intro h
      simp only [List.map_cons]
      have he : e.1 = w := h e (List.mem_cons_self _ _)
      have ht := ih (fun x hx => h x (List.mem_cons_of_mem _ hx))
      rw [← ht]
      rcases e with ⟨a, b⟩
      simp only at he
      rw [he]

theorem worker_results_canonical (fit : ℕ → ℕ)
    (parts : List (List (GroupID × ℕ))) (sched : List (ℕ × ℕ)) (w : ℕ)
    (hw : w < parts.length) (hv : schedule_valid parts sched = true) :
    worker_results fit parts sched w =
      (List.range (parts.getD w []).length).map
        (fun j => (((parts.getD w []).getD j (0, 0)).1,
                   fit ((parts.getD w []).getD j (0, 0)).2)) := by
  unfold schedule_valid at hv
  rw [Bool.and_eq_true] at hv
  have hw' := List.all_eq_true.mp hv.1 w (List.mem_range.mpr hw)
  have hsnd : (sched.filter (fun e => e.1 == w)).map Prod.snd
      = List.range (parts.getD w []).length := eq_of_beq hw'
  have hfst : ∀ e ∈ sched.filter (fun e => e.1 == w), e.1 = w := by
    intro e he
    have hbeq := (List.mem_filter.mp he).2
    exact eq_of_beq hbeq
  have hshape := list_eq_pairs_of_fst_const w _ hfst
  rw [hsnd] at hshape
  unfold worker_results
  rw [hshape, List.map_map]
  rfl

/-- C9: on the same input rows and the same worker count, any two
completion schedules — any two interleavings of the workers' progress
— produce the same final result collection; the schedule can only
affect the progress log, never the merged predictions. -/
theorem parallel_run_schedule_independent (fit : ℕ → ℕ)
    (rows : List (GroupID × ℕ)) (n : ℕ) (s1 s2 : List (ℕ × ℕ))
    (h1 : schedule_valid
      (array_split (List.insertionSort (fun a b => a.1 ≤ b.1) rows) n)
      s1 = true)
    (h2 : schedule_valid
      (array_split (List.insertionSort (fun a b => a.1 ≤ b.1) rows) n)
      s2 = true) :
    parallel_run fit rows n s1 = parallel_run fit rows n s2 := by
  unfold parallel_run
  dsimp only
  congr 1
  apply List.map_congr_left
  intro w hw
  have hwn : w < n := List.mem_range.mp hw
  have hlen : (array_split
      (List.insertionSort (fun a b => a.1 ≤ b.1) rows) n).length = n :=
    array_split_length _ _
  rw [worker_results_canonical fit _ s1 w (by rw [hlen]; exact hwn) h1,
    worker_results_canonical fit _ s2 w (by rw [hlen]; exact hwn) h2]

/-- Witness for `parallel_run_schedule_independent`: two groups on two
workers, one schedule finishing worker 0 first and one finishing
worker 1 first, same result collection. -/
theorem parallel_run_schedule_independent_witness :
    (schedule_valid
        (array_split (List.insertionSort (fun a b => a.1 ≤ b.1)
          [((1 : GroupID), (7 : ℕ)), (0, 5)]) 2) [(0, 0), (1, 0)] = true ∧
      schedule_valid
        (array_split (List.insertionSort (fun a b => a.1 ≤ b.1)
          [((1 : GroupID), (7 : ℕ)), (0, 5)]) 2) [(1, 0), (0, 0)] = true) ∧
    parallel_run (fun d => d + 100) [((1 : GroupID), (7 : ℕ)), (0, 5)] 2
        [(0, 0), (1, 0)] =
      parallel_run (fun d => d + 100) [((1 : GroupID), (7 : ℕ)), (0, 5)] 2
        [(1, 0), (0, 0)] :=
  ⟨⟨by decide, by decide⟩,
    parallel_run_schedule_independent (fun d => d + 100)
      [(1, 7), (0, 5)] 2 [(0, 0), (1, 0)] [(1, 0), (0, 0)]
      (by decide) (by decide)⟩

/-- Witness for `update_reports_iff_all_relevant_slots_done`: a single
slot with one job reports job 0 as soon as it completes it. -/
theorem update_reports_iff_witness :
    (update ⟨1, fun _ => 1⟩ initPrinterState 0 0).2 = some 0 :=
  (update_reports_iff_all_relevant_slots_done ⟨1, fun _ => 1⟩
    initPrinterState 0 0).mpr (by decide)

/-- Witness for `setup_partitions_fails_iff` at two groups and two
workers (a succeeding setup). -/
theorem setup_partitions_fails_iff_witness :
    ((setup_fails [1, 2] 2 = true ↔
        2 = 0 ∨ ([1, 2] : List GroupID).length < 2) ∧
      (setup_fails [1, 2] 2 = true → pipeline_fit_calls [1, 2] 2 = [])) :=
  setup_partitions_fails_iff [1, 2] 2
